import Mathlib

/-
  Verification development for the frame-field core (framefield.py):
  boundary-driven frame initialization, one-ring construction around
  internal edges, pairwise frame matching under the 24-element chiral
  symmetry group, and singular-edge classification.

  Python floats are modelled as exact rationals; numpy vectors and
  3x3 matrices are modelled by the concrete Vec3 and Mat3 structures.
  Python list indexing (including the negative-index idiom) is modelled
  by pyGet / pyGetD; python dicts keyed by tuples are association lists.
-/

set_option allowUnsafeReducibility true

set_option maxRecDepth 8000

set_option maxHeartbeats 1600000

attribute [semireducible] Rat.add Rat.mul Rat.sub Rat.inv

namespace HexM

/-- A 3D vector with rational coordinates (models a numpy length-3 array). -/
structure Vec3 where
  x : ℚ
  y : ℚ
  z : ℚ
deriving DecidableEq, Repr

def Vec3.zero : Vec3 := ⟨0, 0, 0⟩

def Vec3.add (a b : Vec3) : Vec3 := ⟨a.x + b.x, a.y + b.y, a.z + b.z⟩

def Vec3.sub (a b : Vec3) : Vec3 := ⟨a.x - b.x, a.y - b.y, a.z - b.z⟩

def Vec3.neg (a : Vec3) : Vec3 := ⟨-a.x, -a.y, -a.z⟩

def Vec3.smul (c : ℚ) (a : Vec3) : Vec3 := ⟨c * a.x, c * a.y, c * a.z⟩

instance : Add Vec3 := ⟨Vec3.add⟩

instance : Sub Vec3 := ⟨Vec3.sub⟩

instance : Neg Vec3 := ⟨Vec3.neg⟩

/-- Squared Euclidean norm of a vector. -/
def Vec3.sqnorm (a : Vec3) : ℚ := a.x * a.x + a.y * a.y + a.z * a.z

/-- A 3x3 matrix with rational entries, row-major:
rows are (a b c), (d e f), (g h i). Models a numpy 3x3 array. -/
structure Mat3 where
  a : ℚ
  b : ℚ
  c : ℚ
  d : ℚ
  e : ℚ
  f : ℚ
  g : ℚ
  h : ℚ
  i : ℚ
deriving DecidableEq, Repr

/-- The 3x3 identity matrix (np.identity(3)). -/
def Mat3.idm : Mat3 := ⟨1, 0, 0, 0, 1, 0, 0, 0, 1⟩

def Mat3.transpose (M : Mat3) : Mat3 := ⟨M.a, M.d, M.g, M.b, M.e, M.h, M.c, M.f, M.i⟩

/-- Matrix product (np.dot of two 3x3 arrays). -/
def Mat3.mul (M N : Mat3) : Mat3 :=
  ⟨M.a * N.a + M.b * N.d + M.c * N.g,
   M.a * N.b + M.b * N.e + M.c * N.h,
   M.a * N.c + M.b * N.f + M.c * N.i,
   M.d * N.a + M.e * N.d + M.f * N.g,
   M.d * N.b + M.e * N.e + M.f * N.h,
   M.d * N.c + M.e * N.f + M.f * N.i,
   M.g * N.a + M.h * N.d + M.i * N.g,
   M.g * N.b + M.h * N.e + M.i * N.h,
   M.g * N.c + M.h * N.f + M.i * N.i⟩

/-- Matrix-vector product. np.dot(v, P.T) on a length-3 array v equals P
applied to v, i.e. Mat3.mulVec P v. -/
def Mat3.mulVec (M : Mat3) (v : Vec3) : Vec3 :=
  ⟨M.a * v.x + M.b * v.y + M.c * v.z,
   M.d * v.x + M.e * v.y + M.f * v.z,
   M.g * v.x + M.h * v.y + M.i * v.z⟩

def Mat3.det (M : Mat3) : ℚ :=
  M.a * (M.e * M.i - M.f * M.h) - M.b * (M.d * M.i - M.f * M.g)
    + M.c * (M.d * M.h - M.e * M.g)

/-- Matrix inverse by the adjugate formula, the exact value np.linalg.inv
computes for an invertible 3x3 matrix (junk when the determinant is 0). -/
def Mat3.inv (M : Mat3) : Mat3 :=
  let dt := M.det
  ⟨(M.e * M.i - M.f * M.h) / dt, (M.c * M.h - M.b * M.i) / dt, (M.b * M.f - M.c * M.e) / dt,
   (M.f * M.g - M.d * M.i) / dt, (M.a * M.i - M.c * M.g) / dt, (M.c * M.d - M.a * M.f) / dt,
   (M.d * M.h - M.e * M.g) / dt, (M.b * M.g - M.a * M.h) / dt, (M.a * M.e - M.b * M.d) / dt⟩

/-- Row-major 3x3 matrix literal helper. -/
def m3 (a b c d e f g h i : ℚ) : Mat3 := ⟨a, b, c, d, e, f, g, h, i⟩

/-- Modelled from the spec: the utils module providing chiral_symmetries is
absent from src. The spec fixes it as the fixed, precomputed, ordered list of
the 24 proper rotations of the cube, a process-wide read-only constant.
Modelled as the 24 signed permutation matrices of determinant one, identity
first. -/
def chiral_symmetries : List Mat3 := [
  m3 1 0 0 0 1 0 0 0 1,
  m3 1 0 0 0 (-1) 0 0 0 (-1),
  m3 (-1) 0 0 0 1 0 0 0 (-1),
  m3 (-1) 0 0 0 (-1) 0 0 0 1,
  m3 0 1 0 0 0 1 1 0 0,
  m3 0 1 0 0 0 (-1) (-1) 0 0,
  m3 0 (-1) 0 0 0 1 (-1) 0 0,
  m3 0 (-1) 0 0 0 (-1) 1 0 0,
  m3 0 0 1 1 0 0 0 1 0,
  m3 0 0 1 (-1) 0 0 0 (-1) 0,
  m3 0 0 (-1) 1 0 0 0 (-1) 0,
  m3 0 0 (-1) (-1) 0 0 0 1 0,
  m3 1 0 0 0 0 1 0 (-1) 0,
  m3 1 0 0 0 0 (-1) 0 1 0,
  m3 (-1) 0 0 0 0 1 0 1 0,
  m3 (-1) 0 0 0 0 (-1) 0 (-1) 0,
  m3 0 1 0 1 0 0 0 0 (-1),
  m3 0 1 0 (-1) 0 0 0 0 1,
  m3 0 (-1) 0 1 0 0 0 0 1,
  m3 0 (-1) 0 (-1) 0 0 0 0 (-1),
  m3 0 0 1 0 1 0 (-1) 0 0,
  m3 0 0 1 0 (-1) 0 1 0 0,
  m3 0 0 (-1) 0 1 0 1 0 0,
  m3 0 0 (-1) 0 (-1) 0 (-1) 0 0]

/-- Python list indexing: nonnegative indices from the front, negative
indices from the back (l[-1] is the last element); none on range error. -/
def pyGet {α : Type} (l : List α) (idx : Int) : Option α :=
  if 0 ≤ idx then l[idx.toNat]?
  else if (-idx).toNat ≤ l.length then l[l.length - (-idx).toNat]? else none

/-- Python list indexing with a default for the out-of-range case. -/
def pyGetD {α : Type} (l : List α) (idx : Int) (dflt : α) : α :=
  (pyGet l idx).getD dflt

/-- Association-list lookup, modelling a python dict lookup (first match;
the building sites below assign each key a value determined by the key, so
first and last occurrence agree). -/
def alookup {α β : Type} [DecidableEq α] : List (α × β) → α → Option β
  | [], _ => none
  | (k, v) :: rest, q => if q = k then some v else alookup rest q

/-- First index of the minimum of a rational list; np.argmin semantics
(ties resolved to the first occurrence). -/
def argmin : List ℚ → Nat
  | [] => 0
  | [_] => 0
  | v :: w :: rest =>
    let k := argmin (w :: rest)
    if v ≤ (w :: rest).getD k 0 then 0 else k + 1

/-- math.isclose with the default tolerances rel_tol = 1e-9, abs_tol = 0:
abs(a-b) <= max(rel_tol * max(abs(a), abs(b)), abs_tol). -/
def isclose (a b : ℚ) : Bool :=
  |a - b| ≤ max ((1 / 1000000000) * max |a| |b|) 0

/-- An oriented local basis (u, v, w) anchored at a spatial location. -/
structure Frame where
  u : Vec3
  v : Vec3
  w : Vec3
  location : Vec3
deriving DecidableEq, Repr

def default_frame : Frame := ⟨Vec3.zero, Vec3.zero, Vec3.zero, Vec3.zero⟩

instance {ε α : Type} [DecidableEq ε] [DecidableEq α] : DecidableEq (Except ε α) :=
  fun a b =>
    match a, b with
    | Except.ok x, Except.ok y =>
        if h : x = y then isTrue (by rw [h]) else isFalse (fun he => h (Except.ok.inj he))
    | Except.error x, Except.error y =>
        if h : x = y then isTrue (by rw [h]) else isFalse (fun he => h (Except.error.inj he))
    | Except.ok _, Except.error _ => isFalse (fun he => Except.noConfusion he)
    | Except.error _, Except.ok _ => isFalse (fun he => Except.noConfusion he)

/-- Tetrahedral mesh collaborator: point coordinates, element-to-vertex
table, edge-to-vertex table, per-face adjacent element pairs (-1 sentinel),
per-edge incident element, per-element neighbor lists (-1 sentinel). -/
structure TetMesh where
  points : List Vec3
  elements : List (List Int)
  edges : List (Int × Int)
  adjacent_elements : List (Int × Int)
  edge_adjacent_elements : List Int
  neighbors : List (List Int)
deriving Repr

/-- Surface mesh collaborator: face-to-vertex table, face map to volume
face indices, boundary vertex membership, per-vertex curvature data. -/
structure SurfMesh where
  faces : List (List Int)
  face_map_inv : List Int
  vertex_map : List Int
  k1 : List ℚ
  k2 : List ℚ
  pdir1 : List Vec3
  pdir2 : List Vec3
  vertex_normals : List Vec3
deriving Repr

/-- Modelled from the spec: the utils module providing tet_centroid is
absent from src. The spec's glossary fixes the centroid as the geometric
center point of a tetrahedron, modelled as the mean of the element's vertex
coordinates. -/
def tet_centroid (tm : TetMesh) (ti : Int) : Vec3 :=
  let tet := pyGetD tm.elements ti []
  Vec3.smul (1 / (tet.length : ℚ))
    (tet.foldl (fun acc vi => acc + pyGetD tm.points vi Vec3.zero) Vec3.zero)

/-- One step of the boundary-frame loop of init_framefield: faces whose
first vertex has both principal curvatures close to 0 produce no frame;
all other faces produce the curvature-direction frame anchored at the
adjacent tetrahedron's centroid. -/
def faceFrame (tm : TetMesh) (sm : SurfMesh) (fi : Nat) : Option Frame :=
  let surf_face := sm.faces.getD fi []
  let ti := (pyGetD tm.adjacent_elements (pyGetD sm.face_map_inv (fi : Int) 0) (0, 0)).1
  let v0 := pyGetD surf_face 0 0
  if isclose (pyGetD sm.k1 v0 0) 0 && isclose (pyGetD sm.k2 v0 0) 0 then none
  else some ⟨pyGetD sm.pdir1 v0 Vec3.zero, pyGetD sm.pdir2 v0 Vec3.zero,
             pyGetD sm.vertex_normals v0 Vec3.zero, tet_centroid tm ti⟩

/-- The boundary frames built by init_framefield before propagation. -/
def boundary_frames (tm : TetMesh) (sm : SurfMesh) : List Frame :=
  (List.range sm.faces.length).filterMap (faceFrame tm sm)

/-- Modelled behavior of the scipy KDTree nearest-neighbor query: the index
of the closest point by Euclidean distance, ties resolved to the first
index (scipy returns a single deterministic nearest index). -/
def kd_query (pts : List Vec3) (q : Vec3) : Nat :=
  argmin (pts.map (fun p => Vec3.sqnorm (q - p)))

/-- The diagnostic numpy raises for np.vstack on an empty list. -/
def vstack_empty_error : String := "need at least one array to concatenate"

/-- init_framefield: build boundary frames, index their locations, then give
every tetrahedron the u, v, w of its nearest boundary frame, anchored at its
own centroid. np.vstack raises on an empty boundary-frame list, modelled as
the error case. -/
def init_framefield (tm : TetMesh) (sm : SurfMesh) : Except String (List Frame) :=
  let bf := boundary_frames tm sm
  if bf.isEmpty then Except.error vstack_empty_error
  else Except.ok ((List.range tm.elements.length).map fun (ti : Nat) =>
    let location := tet_centroid tm (ti : Int)
    let nearest_ti := kd_query (bf.map (fun fr => fr.location)) location
    let fr := bf.getD nearest_ti default_frame
    ⟨fr.u, fr.v, fr.w, location⟩)

/-- The viability test of the one-ring walk: a neighbor index is picked when
it is not the -1 sentinel, not already in the ring, and its element contains
both edge endpoints. -/
def viable (tm : TetMesh) (e0 e1 : Int) (one_ring : List Int) (n : Int) : Bool :=
  !(n == -1 || one_ring.contains n) &&
    ((pyGetD tm.elements n []).contains e0 && (pyGetD tm.elements n []).contains e1)

/-- One pass of the walk's inner for-loop: the first viable neighbor of the
last ring element (python one_ring[-1]), if any. -/
def findNext (tm : TetMesh) (e0 e1 : Int) (one_ring : List Int) : Option Int :=
  (pyGetD tm.neighbors (pyGetD one_ring (-1) 0) []).find? (viable tm e0 e1 one_ring)

/-- The while-loop of compute_onerings: keep appending the first viable
neighbor of the last element until none exists. Fuel bounds the number of
appends; each append adds a fresh value drawn from the neighbor lists, so
any fuel of at least the total neighbor-list length reaches the stuck
state the python loop stops in. -/
def walk (tm : TetMesh) (e0 e1 : Int) : Nat → List Int → List Int
  | 0, one_ring => one_ring
  | fuel + 1, one_ring =>
    match findNext tm e0 e1 one_ring with
    | none => one_ring
    | some n => walk tm e0 e1 fuel (one_ring ++ [n])

def walkFuel (tm : TetMesh) : Nat :=
  tm.neighbors.foldl (fun acc l => acc + l.length) 0 + 1

/-- Per-edge body of compute_onerings: skip edges with both endpoints in the
surface vertex map; otherwise walk the one-ring from the edge's recorded
incident tetrahedron. -/
def oneRingOf (tm : TetMesh) (sm : SurfMesh) (ei : Nat) : Option (List Int) :=
  let edge := tm.edges.getD ei (0, 0)
  if edge.1 ∈ sm.vertex_map ∧ edge.2 ∈ sm.vertex_map then none
  else some (walk tm edge.1 edge.2 (walkFuel tm) [pyGetD tm.edge_adjacent_elements (ei : Int) 0])

/-- compute_onerings: the dictionary from internal edge index to its
recorded one-ring. -/
def compute_onerings (tm : TetMesh) (sm : SurfMesh) : List (Nat × List Int) :=
  (List.range tm.edges.length).filterMap fun ei =>
    (oneRingOf tm sm ei).map (fun r => (ei, r))

/-- The residual vector of singular_graph's matching loop for one symmetry
candidate P: frames[p0].u - P frames[p1].u + frames[p0].v - P frames[p1].v +
frames[p0].w - P frames[p1].w. -/
def resid (fs : List Frame) (p : Int × Int) (P : Mat3) : Vec3 :=
  let f0 := pyGetD fs p.1 default_frame
  let f1 := pyGetD fs p.2 default_frame
  f0.u - P.mulVec f1.u + f0.v - P.mulVec f1.v + f0.w - P.mulVec f1.w

/-- The candidate scores (args list): squared norms stand in for the numpy
Euclidean norms, which order identically. -/
def matchScores (fs : List Frame) (p : Int × Int) : List ℚ :=
  chiral_symmetries.map (fun P => Vec3.sqnorm (resid fs p P))

/-- chiral_symmetries[np.argmin(args)]: the stored matching for a pair. -/
def bestMatch (fs : List Frame) (p : Int × Int) : Mat3 :=
  chiral_symmetries.getD (argmin (matchScores fs p)) Mat3.idm

/-- The matchings dictionary of singular_graph: one entry per adjacent
element pair without the -1 sentinel. -/
def matchings (tm : TetMesh) (fs : List Frame) : List ((Int × Int) × Mat3) :=
  tm.adjacent_elements.filterMap fun p =>
    if p.1 = -1 ∨ p.2 = -1 then none
    else some (p, bestMatch fs p)

/-- The step pair of the classifier loop: (one_ring[(i+1) % n], one_ring[i]). -/
def stepPair (one_ring : List Int) (i : Nat) : Int × Int :=
  (one_ring.getD ((i + 1) % one_ring.length) 0, one_ring.getD i 0)

/-- The matrix line 124 multiplies by: matchings[pair], where pair has been
reversed when the original order was absent. The inverse computed into the
local variable on line 120 is never used. -/
def stepMatrix (m : List ((Int × Int) × Mat3)) (p : Int × Int) : Mat3 :=
  match alookup m p with
  | some M => M
  | none => (alookup m (p.2, p.1)).getD Mat3.idm

/-- The accumulator of the classifier loop (the variable named type):
identity, then right-multiplied by the step matrix at each i. -/
def edge_type (m : List ((Int × Int) × Mat3)) (one_ring : List Int) : Mat3 :=
  (List.range one_ring.length).foldl
    (fun acc i => acc.mul (stepMatrix m (stepPair one_ring i))) Mat3.idm

/-- Follows the spec's words for the classifier step, to be compared with
the source's stepMatrix: when the ordered pair is absent, look up the
reverse-ordered pair and invert it, and multiply by that inverse. -/
def stepMatrixSpec (m : List ((Int × Int) × Mat3)) (p : Int × Int) : Mat3 :=
  match alookup m p with
  | some M => M
  | none => Mat3.inv ((alookup m (p.2, p.1)).getD Mat3.idm)

/-- The accumulator the spec's words prescribe, built from stepMatrixSpec. -/
def edge_type_spec (m : List ((Int × Int) × Mat3)) (one_ring : List Int) : Mat3 :=
  (List.range one_ring.length).foldl
    (fun acc i => acc.mul (stepMatrixSpec m (stepPair one_ring i))) Mat3.idm

/-- The lines list of singular_graph: edges with a recorded one-ring whose
accumulator differs from the identity, in edge-index order. -/
def singular_graph_lines (tm : TetMesh) (one_rings : List (Nat × List Int))
    (fs : List Frame) : List (Int × Int) :=
  let m := matchings tm fs
  (List.range tm.edges.length).filterMap fun ei =>
    match alookup one_rings ei with
    | none => none
    | some one_ring =>
      if edge_type m one_ring = Mat3.idm then none else some (tm.edges.getD ei (0, 0))

/-- Modelled from the spec: the visual module providing plot_lines is absent
from src. The spec fixes the delivered output as the ordered list of
singular-edge vertex-pairs in mesh point coordinates, for line-based
rendering: each vertex pair is rendered as the segment between its two mesh
points. -/
def plot_lines (lines : List (Int × Int)) (points : List Vec3) : List (Vec3 × Vec3) :=
  lines.map fun edge => (pyGetD points edge.1 Vec3.zero, pyGetD points edge.2 Vec3.zero)

/-- singular_graph's delivery to the rendering collaborator. -/
def singular_graph (tm : TetMesh) (one_rings : List (Nat × List Int))
    (fs : List Frame) : List (Vec3 × Vec3) :=
  plot_lines (singular_graph_lines tm one_rings fs) tm.points

/-! Concrete inputs used to evaluate the definitions. -/

/-- Frame pair whose combined residual forces the unique matching exA. -/
def exF1 : List Frame :=
  [⟨⟨3, 1, 2⟩, Vec3.zero, Vec3.zero, Vec3.zero⟩,
   ⟨⟨1, 2, 3⟩, Vec3.zero, Vec3.zero, Vec3.zero⟩]

/-- Mesh with one interior face pair (0,1) and one edge (7,8). -/
def exTm1 : TetMesh := ⟨[⟨0, 0, 0⟩, ⟨1, 0, 0⟩], [], [(7, 8)], [(0, 1)], [], []⟩

def exRings1 : List (Nat × List Int) := [(0, [0, 1])]

/-- The cyclic coordinate rotation, an order-3 element of the group. -/
def exA : Mat3 := m3 0 0 1 1 0 0 0 1 0

/-- Frame pair whose matching scores tie between exB and its transpose. -/
def exF4 : List Frame :=
  [⟨⟨5, 4, 3⟩, Vec3.zero, Vec3.zero, Vec3.zero⟩,
   ⟨⟨1, 2, 3⟩, Vec3.zero, Vec3.zero, Vec3.zero⟩]

/-- Mesh carrying both orientations of the adjacent pair. -/
def exTm4 : TetMesh := ⟨[], [], [], [(0, 1), (1, 0)], [], []⟩

/-- The inverse cyclic coordinate rotation, the transpose of exA. -/
def exB : Mat3 := m3 0 1 0 0 0 1 1 0 0

/-- Frame pair with a unique minimal matching score (at the identity). -/
def exF4w : List Frame :=
  [⟨⟨1, 2, 3⟩, Vec3.zero, Vec3.zero, Vec3.zero⟩,
   ⟨⟨1, 2, 3⟩, Vec3.zero, Vec3.zero, Vec3.zero⟩]

/-- Mesh with the single adjacent pair (0,1). -/
def exTm4w : TetMesh := ⟨[], [], [], [(0, 1)], [], []⟩

/-- Mesh whose internal edge (0,1) has a one-ring walk that gets stuck at
the seed while tetrahedron 1 also contains both edge endpoints. -/
def exTm5 : TetMesh := ⟨[], [[0, 1, 2, 3], [0, 1, 4, 5]], [(0, 1)], [], [0], [[-1], [-1]]⟩

def exSm5 : SurfMesh := ⟨[], [], [], [], [], [], [], []⟩

/-- Mesh with one tetrahedron, for the initializer. -/
def exTm7 : TetMesh :=
  ⟨[⟨0, 0, 0⟩, ⟨2, 0, 0⟩, ⟨0, 2, 0⟩, ⟨0, 0, 2⟩], [[0, 1, 2, 3]], [], [(0, -1)], [], []⟩

/-- Surface mesh with one face at a curved vertex. -/
def exSm7 : SurfMesh :=
  ⟨[[0]], [0], [], [1], [0], [⟨1, 0, 0⟩], [⟨0, 1, 0⟩], [⟨0, 0, 1⟩]⟩

/-! Helper lemmas: vector and matrix componentwise algebra. -/

@[ext]
theorem Vec3.ext_comp (a b : Vec3) (hx : a.x = b.x) (hy : a.y = b.y) (hz : a.z = b.z) :
    a = b := by
  cases a; cases b; simp_all

@[simp]
theorem Vec3.add_x (a b : Vec3) : (a + b).x = a.x + b.x := rfl

@[simp]
theorem Vec3.add_y (a b : Vec3) : (a + b).y = a.y + b.y := rfl

@[simp]
theorem Vec3.add_z (a b : Vec3) : (a + b).z = a.z + b.z := rfl

@[simp]
theorem Vec3.sub_x (a b : Vec3) : (a - b).x = a.x - b.x := rfl

@[simp]
theorem Vec3.sub_y (a b : Vec3) : (a - b).y = a.y - b.y := rfl

@[simp]
theorem Vec3.sub_z (a b : Vec3) : (a - b).z = a.z - b.z := rfl

@[simp]
theorem Vec3.neg_x (a : Vec3) : (Vec3.neg a).x = -a.x := rfl

@[simp]
theorem Vec3.neg_y (a : Vec3) : (Vec3.neg a).y = -a.y := rfl

@[simp]
theorem Vec3.neg_z (a : Vec3) : (Vec3.neg a).z = -a.z := rfl

@[simp]
theorem Mat3.mulVec_x (M : Mat3) (v : Vec3) :
    (M.mulVec v).x = M.a * v.x + M.b * v.y + M.c * v.z := rfl

@[simp]
theorem Mat3.mulVec_y (M : Mat3) (v : Vec3) :
    (M.mulVec v).y = M.d * v.x + M.e * v.y + M.f * v.z := rfl

@[simp]
theorem Mat3.mulVec_z (M : Mat3) (v : Vec3) :
    (M.mulVec v).z = M.g * v.x + M.h * v.y + M.i * v.z := rfl

theorem Mat3.transpose_transpose (M : Mat3) : M.transpose.transpose = M := rfl

theorem Vec3.sqnorm_neg (v : Vec3) : (Vec3.neg v).sqnorm = v.sqnorm := by
  simp [Vec3.sqnorm]

/-- An orthogonal matrix preserves the squared norm. -/
theorem Vec3.sqnorm_mulVec_orth (M : Mat3) (hM : M.transpose.mul M = Mat3.idm) (v : Vec3) :
    (M.mulVec v).sqnorm = v.sqnorm := by
  have h11 : M.a * M.a + M.d * M.d + M.g * M.g = 1 := by
    have := congrArg Mat3.a hM; simpa [Mat3.mul, Mat3.transpose, Mat3.idm] using this
  have h12 : M.a * M.b + M.d * M.e + M.g * M.h = 0 := by
    have := congrArg Mat3.b hM; simpa [Mat3.mul, Mat3.transpose, Mat3.idm] using this
  have h13 : M.a * M.c + M.d * M.f + M.g * M.i = 0 := by
    have := congrArg Mat3.c hM; simpa [Mat3.mul, Mat3.transpose, Mat3.idm] using this
  have h22 : M.b * M.b + M.e * M.e + M.h * M.h = 1 := by
    have := congrArg Mat3.e hM; simpa [Mat3.mul, Mat3.transpose, Mat3.idm] using this
  have h23 : M.b * M.c + M.e * M.f + M.h * M.i = 0 := by
    have := congrArg Mat3.f hM; simpa [Mat3.mul, Mat3.transpose, Mat3.idm] using this
  have h33 : M.c * M.c + M.f * M.f + M.i * M.i = 1 := by
    have := congrArg Mat3.i hM; simpa [Mat3.mul, Mat3.transpose, Mat3.idm] using this
  simp only [Vec3.sqnorm, Mat3.mulVec_x, Mat3.mulVec_y, Mat3.mulVec_z]
  linear_combination (v.x * v.x) * h11 + (v.y * v.y) * h22 + (v.z * v.z) * h33 +
    (2 * v.x * v.y) * h12 + (2 * v.x * v.z) * h13 + (2 * v.y * v.z) * h23

theorem Vec3.sqnorm_nonneg (v : Vec3) : 0 ≤ v.sqnorm := by
  simp only [Vec3.sqnorm]
  linarith [mul_self_nonneg v.x, mul_self_nonneg v.y, mul_self_nonneg v.z]

/-! Helper lemmas: argmin (np.argmin semantics). -/

theorem argmin_lt_length (l : List ℚ) (hl : l ≠ []) : argmin l < l.length := by
  induction l with
  | nil => exact absurd rfl hl
  | cons v rest ih =>
    cases rest with
    | nil => simp [argmin]
    | cons w rest' =>
      simp only [argmin]
      split
      · simp
      · have := ih (by simp)
        simpa using Nat.succ_lt_succ this

theorem argmin_le (l : List ℚ) (j : Nat) (hj : j < l.length) :
    l.getD (argmin l) 0 ≤ l.getD j 0 := by
  induction l generalizing j with
  | nil => simp at hj
  | cons v rest ih =>
    cases rest with
    | nil =>
      have : j = 0 := by simpa using Nat.lt_one_iff.mp (by simpa using hj)
      subst this; simp [argmin]
    | cons w rest' =>
      simp only [argmin]
      split
      · rename_i hle
        cases j with
        | zero => simp
        | succ j' =>
          have hj' : j' < (w :: rest').length := by simpa using hj
          calc (v :: w :: rest').getD 0 0 = v := rfl
            _ ≤ (w :: rest').getD (argmin (w :: rest')) 0 := hle
            _ ≤ (w :: rest').getD j' 0 := ih j' hj'
            _ = (v :: w :: rest').getD (j' + 1) 0 := rfl
      · rename_i hgt
        have hvlt : (w :: rest').getD (argmin (w :: rest')) 0 < v := not_le.mp hgt
        cases j with
        | zero => exact le_of_lt hvlt
        | succ j' =>
          have hj' : j' < (w :: rest').length := by simpa using hj
          exact ih j' hj'

theorem argmin_first (l : List ℚ) (j : Nat) (hj : j < argmin l) :
    l.getD (argmin l) 0 < l.getD j 0 := by
  induction l generalizing j with
  | nil => simp [argmin] at hj
  | cons v rest ih =>
    cases rest with
    | nil => simp [argmin] at hj
    | cons w rest' =>
      simp only [argmin] at hj ⊢
      split at hj
      · simp at hj
      · rename_i hgt
        have hvlt : (w :: rest').getD (argmin (w :: rest')) 0 < v := not_le.mp hgt
        split
        · rename_i hle
          exact absurd hvlt (not_lt.mpr hle)
        · cases j with
          | zero => exact hvlt
          | succ j' =>
            have hj' : j' < argmin (w :: rest') := by omega
            exact ih j' hj'

theorem argmin_unique (l : List ℚ) (k : Nat) (hk : k < l.length)
    (h : ∀ j, j < l.length → j ≠ k → l.getD k 0 < l.getD j 0) : argmin l = k := by
  by_contra hne
  have hl : l ≠ [] := by
    intro e; subst e; simp at hk
  have h1 := argmin_le l k hk
  have h2 := h (argmin l) (argmin_lt_length l hl) hne
  exact absurd h1 (not_le.mpr h2)

/-! Helper lemmas: python indexing and association-list lookup. -/

theorem pyGetD_natCast {α : Type} (l : List α) (n : Nat) (d : α) :
    pyGetD l (n : Int) d = l.getD n d := by
  rw [pyGetD, pyGet, if_pos (Int.natCast_nonneg n)]
  simp [List.getD_eq_getElem?_getD]

theorem alookup_append_left {α β : Type} [DecidableEq α] (l1 l2 : List (α × β)) (q : α)
    (b : β) (h : alookup l1 q = some b) : alookup (l1 ++ l2) q = some b := by
  induction l1 with
  | nil => simp [alookup] at h
  | cons a rest ih =>
    rw [List.cons_append]
    cases a with
    | mk ka va =>
      rw [alookup] at h ⊢
      split
      · split at h
        · exact h
        · simp_all
      · split at h
        · simp_all
        · exact ih h

theorem alookup_append_right {α β : Type} [DecidableEq α] (l1 l2 : List (α × β)) (q : α)
    (h : alookup l1 q = none) : alookup (l1 ++ l2) q = alookup l2 q := by
  induction l1 with
  | nil => simp
  | cons a rest ih =>
    rw [List.cons_append]
    cases a with
    | mk ka va =>
      rw [alookup] at h ⊢
      split
      · split at h
        · exact absurd h (by simp)
        · simp_all
      · split at h
        · simp_all
        · exact ih h

theorem alookup_filterMap_range {β : Type} (f : Nat → Option β) (n k : Nat) :
    alookup ((List.range n).filterMap fun i => (f i).map fun b => (i, b)) k =
      if k < n then f k else none := by
  induction n with
  | zero => simp [alookup]
  | succ n ih =>
    rw [List.range_succ, List.filterMap_append]
    rcases Nat.lt_trichotomy k n with hlt | heq | hgt
    · rw [if_pos (Nat.lt_succ_of_lt hlt)]
      rw [if_pos hlt] at ih
      cases hfk : f k with
      | none =>
        rw [hfk] at ih
        rw [alookup_append_right _ _ _ ih]
        have hkn : k ≠ n := Nat.ne_of_lt hlt
        cases hfn : f n <;> simp [alookup, hfn, hkn]
      | some b =>
        rw [hfk] at ih
        exact alookup_append_left _ _ _ _ ih
    · subst heq
      rw [if_pos (Nat.lt_succ_self k)]
      rw [if_neg (Nat.lt_irrefl k)] at ih
      rw [alookup_append_right _ _ _ ih]
      cases hfk : f k <;> simp [alookup, hfk]
    · rw [if_neg (by omega)]
      rw [if_neg (by omega)] at ih
      rw [alookup_append_right _ _ _ ih]
      have hkn : k ≠ n := by omega
      cases hfn : f n <;> simp [alookup, hfn, hkn]

theorem alookup_build {α β : Type} [DecidableEq α] (l : List α) (cond : α → Prop)
    [DecidablePred cond] (g : α → β) (q : α) (hq : q ∈ l) (hc : ¬ cond q) :
    alookup (l.filterMap fun p => if cond p then none else some (p, g p)) q = some (g q) := by
  induction l with
  | nil => simp at hq
  | cons a rest ih =>
    rw [List.filterMap_cons]
    split
    · rename_i ha
      have hqa : q ≠ a := by
        intro he; subst he
        rw [if_neg hc] at ha; simp at ha
      exact ih (by
        rcases List.mem_cons.mp hq with h | h
        · exact absurd h hqa
        · exact h)
    · rename_i b ha
      split at ha
      · simp at ha
      · rename_i hca
        have hb : b = (a, g a) := by simpa using ha.symm
        subst hb
        rw [alookup]
        split
        · rename_i hqa; subst hqa; rfl
        · rename_i hqa
          exact ih (by
            rcases List.mem_cons.mp hq with h | h
            · exact absurd h hqa
            · exact h)

theorem alookup_build_inv {α β : Type} [DecidableEq α] (l : List α) (cond : α → Prop)
    [DecidablePred cond] (g : α → β) (q : α) (M : β)
    (h : alookup (l.filterMap fun p => if cond p then none else some (p, g p)) q = some M) :
    q ∈ l ∧ ¬ cond q ∧ M = g q := by
  induction l with
  | nil => simp [alookup] at h
  | cons a rest ih =>
    rw [List.filterMap_cons] at h
    split at h
    · rename_i ha
      obtain ⟨hq, hc, hM⟩ := ih h
      exact ⟨List.mem_cons_of_mem _ hq, hc, hM⟩
    · rename_i b ha
      split at ha
      · simp at ha
      · rename_i hca
        have hb : b = (a, g a) := by simpa using ha.symm
        subst hb
        rw [alookup] at h
        split at h
        · rename_i hqa; subst hqa
          exact ⟨List.mem_cons_self _ _, hca, (by simpa using h.symm)⟩
        · obtain ⟨hq, hc, hM⟩ := ih h
          exact ⟨List.mem_cons_of_mem _ hq, hc, hM⟩

/-! Helper lemmas: facts about the fixed symmetry group, checked by
evaluation. -/

theorem chiral_orth : ∀ M ∈ chiral_symmetries,
    M.transpose.mul M = Mat3.idm ∧ M.mul M.transpose = Mat3.idm := by decide

theorem chiral_trans_mem : ∀ M ∈ chiral_symmetries,
    M.transpose ∈ chiral_symmetries := by decide

theorem chiral_nodup : chiral_symmetries.Nodup := by decide

theorem chiral_ne_nil : chiral_symmetries ≠ [] := by decide

theorem chiral_getD_inj (i j : Nat) (hi : i < chiral_symmetries.length)
    (hj : j < chiral_symmetries.length)
    (h : chiral_symmetries.getD i Mat3.idm = chiral_symmetries.getD j Mat3.idm) : i = j := by
  rw [List.getD_eq_getElem _ _ hi, List.getD_eq_getElem _ _ hj] at h
  exact (List.Nodup.getElem_inj_iff chiral_nodup).mp h

theorem chiral_getD_mem (k : Nat) (hk : k < chiral_symmetries.length) :
    chiral_symmetries.getD k Mat3.idm ∈ chiral_symmetries := by
  rw [List.getD_eq_getElem _ _ hk]
  exact List.getElem_mem hk

/-! Helper lemmas: the matching scores. -/

theorem matchScores_length (fs : List Frame) (p : Int × Int) :
    (matchScores fs p).length = chiral_symmetries.length := List.length_map _ _

theorem matchScores_ne_nil (fs : List Frame) (p : Int × Int) : matchScores fs p ≠ [] := by
  intro h
  have := matchScores_length fs p
  rw [h] at this
  exact chiral_ne_nil (List.length_eq_zero.mp this.symm)

theorem matchScores_getD (fs : List Frame) (p : Int × Int) (l : Nat)
    (hl : l < chiral_symmetries.length) :
    (matchScores fs p).getD l 0 =
      Vec3.sqnorm (resid fs p (chiral_symmetries.getD l Mat3.idm)) := by
  rw [matchScores, List.getD_eq_getElem _ _ (by simpa using hl), List.getElem_map,
    List.getD_eq_getElem _ _ hl]

/-- The combined residual of the swapped pair under Q has the same squared
norm as the residual of the original pair under the transpose of Q, for Q
in the orthogonal group. -/
theorem resid_swap_sqnorm (fs : List Frame) (p : Int × Int) (Q : Mat3)
    (h1 : Q.transpose.mul Q = Mat3.idm) (h2 : Q.mul Q.transpose = Mat3.idm) :
    Vec3.sqnorm (resid fs (p.2, p.1) Q) = Vec3.sqnorm (resid fs p Q.transpose) := by
  have key : resid fs (p.2, p.1) Q = Vec3.neg (Q.mulVec (resid fs p Q.transpose)) := by
    have ha : Q.a * Q.a + Q.b * Q.b + Q.c * Q.c = 1 := by
      have := congrArg Mat3.a h2; simpa [Mat3.mul, Mat3.transpose, Mat3.idm] using this
    have hb : Q.a * Q.d + Q.b * Q.e + Q.c * Q.f = 0 := by
      have := congrArg Mat3.b h2; simpa [Mat3.mul, Mat3.transpose, Mat3.idm] using this
    have hc : Q.a * Q.g + Q.b * Q.h + Q.c * Q.i = 0 := by
      have := congrArg Mat3.c h2; simpa [Mat3.mul, Mat3.transpose, Mat3.idm] using this
    have hd : Q.d * Q.a + Q.e * Q.b + Q.f * Q.c = 0 := by
      have := congrArg Mat3.d h2; simpa [Mat3.mul, Mat3.transpose, Mat3.idm] using this
    have he : Q.d * Q.d + Q.e * Q.e + Q.f * Q.f = 1 := by
      have := congrArg Mat3.e h2; simpa [Mat3.mul, Mat3.transpose, Mat3.idm] using this
    have hf : Q.d * Q.g + Q.e * Q.h + Q.f * Q.i = 0 := by
      have := congrArg Mat3.f h2; simpa [Mat3.mul, Mat3.transpose, Mat3.idm] using this
    have hg : Q.g * Q.a + Q.h * Q.b + Q.i * Q.c = 0 := by
      have := congrArg Mat3.g h2; simpa [Mat3.mul, Mat3.transpose, Mat3.idm] using this
    have hh : Q.g * Q.d + Q.h * Q.e + Q.i * Q.f = 0 := by
      have := congrArg Mat3.h h2; simpa [Mat3.mul, Mat3.transpose, Mat3.idm] using this
    have hi : Q.g * Q.g + Q.h * Q.h + Q.i * Q.i = 1 := by
      have := congrArg Mat3.i h2; simpa [Mat3.mul, Mat3.transpose, Mat3.idm] using this
    set f0 := pyGetD fs p.1 default_frame with hf0
    set f1 := pyGetD fs p.2 default_frame with hf1
    have e0 : resid fs (p.2, p.1) Q =
        f1.u - Q.mulVec f0.u + f1.v - Q.mulVec f0.v + f1.w - Q.mulVec f0.w := by
      rw [resid]
    have e1 : resid fs p Q.transpose =
        f0.u - Q.transpose.mulVec f1.u + f0.v - Q.transpose.mulVec f1.v +
          f0.w - Q.transpose.mulVec f1.w := by
      rw [resid]
    rw [e0, e1]
    apply Vec3.ext_comp
    · simp only [Vec3.add_x, Vec3.add_y, Vec3.add_z, Vec3.sub_x, Vec3.sub_y, Vec3.sub_z,
        Vec3.neg_x, Mat3.mulVec_x, Mat3.mulVec_y, Mat3.mulVec_z, Mat3.transpose]
      linear_combination (-(f1.u.x + f1.v.x + f1.w.x)) * ha + (-(f1.u.y + f1.v.y + f1.w.y)) * hb +
        (-(f1.u.z + f1.v.z + f1.w.z)) * hc
    · simp only [Vec3.add_x, Vec3.add_y, Vec3.add_z, Vec3.sub_x, Vec3.sub_y, Vec3.sub_z,
        Vec3.neg_y, Mat3.mulVec_x, Mat3.mulVec_y, Mat3.mulVec_z, Mat3.transpose]
      linear_combination (-(f1.u.x + f1.v.x + f1.w.x)) * hd + (-(f1.u.y + f1.v.y + f1.w.y)) * he +
        (-(f1.u.z + f1.v.z + f1.w.z)) * hf
    · simp only [Vec3.add_x, Vec3.add_y, Vec3.add_z, Vec3.sub_x, Vec3.sub_y, Vec3.sub_z,
        Vec3.neg_z, Mat3.mulVec_x, Mat3.mulVec_y, Mat3.mulVec_z, Mat3.transpose]
      linear_combination (-(f1.u.x + f1.v.x + f1.w.x)) * hg + (-(f1.u.y + f1.v.y + f1.w.y)) * hh +
        (-(f1.u.z + f1.v.z + f1.w.z)) * hi
  rw [key, Vec3.sqnorm_neg, Vec3.sqnorm_mulVec_orth Q h1]

/-- The stored matching of an interior-adjacent pair is the first-argmin
selection for that pair. -/
theorem alookup_matchings (tm : TetMesh) (fs : List Frame) (p : Int × Int)
    (hp : p ∈ tm.adjacent_elements) (h1 : p.1 ≠ -1) (h2 : p.2 ≠ -1) :
    alookup (matchings tm fs) p = some (bestMatch fs p) := by
  apply alookup_build tm.adjacent_elements (fun q => q.1 = -1 ∨ q.2 = -1)
    (bestMatch fs) p hp
  rintro (h | h)
  · exact h1 h
  · exact h2 h

theorem alookup_matchings_inv (tm : TetMesh) (fs : List Frame) (p : Int × Int) (M : Mat3)
    (h : alookup (matchings tm fs) p = some M) :
    p ∈ tm.adjacent_elements ∧ ¬(p.1 = -1 ∨ p.2 = -1) ∧ M = bestMatch fs p :=
  alookup_build_inv tm.adjacent_elements (fun q => q.1 = -1 ∨ q.2 = -1) (bestMatch fs) p M h

/-! Helper lemmas: the one-ring walk. -/

/-- The walk only ever appends fresh indices that passed the viability test:
the result extends the start ring, stays duplicate-free, and every appended
index is a real tetrahedron containing both edge endpoints. -/
theorem walk_spec (tm : TetMesh) (e0 e1 : Int) (fuel : Nat) :
    ∀ one_ring : List Int, one_ring.Nodup →
      ∃ ext : List Int, walk tm e0 e1 fuel one_ring = one_ring ++ ext ∧
        (one_ring ++ ext).Nodup ∧
        ∀ x ∈ ext, x ≠ -1 ∧ e0 ∈ pyGetD tm.elements x [] ∧ e1 ∈ pyGetD tm.elements x [] := by
  induction fuel with
  | zero =>
    intro r hr
    exact ⟨[], by simp [walk], by simpa using hr, by simp⟩
  | succ fuel ih =>
    intro r hr
    cases hfind : findNext tm e0 e1 r with
    | none =>
      exact ⟨[], by simp [walk, hfind], by simpa using hr, by simp⟩
    | some n =>
      have hv : viable tm e0 e1 r n = true := List.find?_some hfind
      rw [viable, Bool.and_eq_true, Bool.and_eq_true] at hv
      obtain ⟨hnot, hc0b, hc1b⟩ := hv
      rw [Bool.not_eq_true', Bool.or_eq_false_iff] at hnot
      obtain ⟨hneb, hnrb⟩ := hnot
      have hne : n ≠ -1 := by simpa using hneb
      have hnr : n ∉ r := by simpa using hnrb
      have hc0 : e0 ∈ pyGetD tm.elements n [] := by simpa using hc0b
      have hc1 : e1 ∈ pyGetD tm.elements n [] := by simpa using hc1b
      have hnodup : (r ++ [n]).Nodup := by
        simp [List.nodup_append, hr, hnr]
      obtain ⟨ext, heq, hnd, hext⟩ := ih (r ++ [n]) hnodup
      refine ⟨n :: ext, ?_, ?_, ?_⟩
      · have hw : walk tm e0 e1 (fuel + 1) r = walk tm e0 e1 fuel (r ++ [n]) := by
          rw [walk, hfind]
        rw [hw, heq, List.append_assoc, List.singleton_append]
      · simpa [List.append_assoc] using hnd
      · intro x hx
        rcases List.mem_cons.mp hx with h | h
        · subst h; exact ⟨hne, hc0, hc1⟩
        · exact hext x h

/-- Lookup form of the one-ring dictionary. -/
theorem alookup_onerings (tm : TetMesh) (sm : SurfMesh) (ei : Nat) :
    alookup (compute_onerings tm sm) ei =
      if ei < tm.edges.length then oneRingOf tm sm ei else none :=
  alookup_filterMap_range (oneRingOf tm sm) tm.edges.length ei

/-! Claim theorems. -/

/-- C1: at a one-ring step whose ordered pair is absent from the stored
matchings, the classifier loop multiplies the accumulator by the matching
stored for the reverse-ordered pair itself, not by its inverse: on exF1 the
single stored matching is the order-3 rotation exA for the pair (0, 1); the
ring [0, 1] first needs the absent pair (1, 0), and the code's accumulator
comes out as exA * exA (reporting edge (7, 8) as singular), while the
multiply-by-the-inverse rule of the claim yields the identity. -/
theorem classifier_skips_inversion_on_reversed_pairs :
    matchings exTm1 exF1 = [((0, 1), exA)] ∧
    edge_type (matchings exTm1 exF1) [0, 1] = exA.mul exA ∧
    edge_type_spec (matchings exTm1 exF1) [0, 1] = Mat3.idm ∧
    exA.mul exA ≠ Mat3.idm ∧
    exA.mul (Mat3.inv exA) = Mat3.idm ∧
    singular_graph_lines exTm1 exRings1 exF1 = [(7, 8)] := by decide

/-- C4 (counterexample): on exF4 the matching scores of the pair (0, 1) tie
between exB and its transpose; the first-encountered-minimum tie-break
stores exB for (0, 1) and also computes exB for (1, 0), yet exB is an
order-3 rotation (its transpose, which is its inverse, differs from it), so
the stored Matching's inverse does not equal the Matching computed for the
reversed pair. -/
theorem matching_transpose_fails_on_tie :
    alookup (matchings exTm4 exF4) (0, 1) = some exB ∧
    alookup (matchings exTm4 exF4) (1, 0) = some exB ∧
    exB.mul exB.transpose = Mat3.idm ∧
    Mat3.inv exB = exB.transpose ∧
    exB.transpose ≠ exB := by decide

/-- C5 (counterexample): in exTm5, the internal edge 0 joins vertices 0 and
1; the greedy walk from the seed tetrahedron 0 gets stuck immediately, so
the recorded ring [0] misses tetrahedron 1 even though that tetrahedron
contains both edge endpoints; compute_onerings still records the ring with
no error report of any kind. -/
theorem onering_partial_recorded_silently :
    alookup (compute_onerings exTm5 exSm5) 0 = some [0] ∧
    (0 : Int) ∈ exTm5.elements.getD 1 [] ∧
    (1 : Int) ∈ exTm5.elements.getD 1 [] ∧
    (1 : Int) ∉ ([0] : List Int) ∧
    ¬((exTm5.edges.getD 0 (0, 0)).1 ∈ exSm5.vertex_map ∧
      (exTm5.edges.getD 0 (0, 0)).2 ∈ exSm5.vertex_map) := by decide

/-- C5 (amended): compute_onerings records the result of the greedy walk
for every internal edge unconditionally; it performs no closure check, so a
short or non-closing ring is recorded as-is rather than reported. -/
theorem onering_recorded_unconditionally (tm : TetMesh) (sm : SurfMesh) (ei : Nat)
    (hei : ei < tm.edges.length)
    (hint : ¬((tm.edges.getD ei (0, 0)).1 ∈ sm.vertex_map ∧
      (tm.edges.getD ei (0, 0)).2 ∈ sm.vertex_map)) :
    alookup (compute_onerings tm sm) ei =
      some (walk tm (tm.edges.getD ei (0, 0)).1 (tm.edges.getD ei (0, 0)).2 (walkFuel tm)
        [pyGetD tm.edge_adjacent_elements (ei : Int) 0]) := by
  rw [alookup_onerings, if_pos hei, oneRingOf, if_neg hint]

/-- Witness for onering_recorded_unconditionally at the concrete mesh
exTm5, whose internal edge 0 is recorded with its stuck walk result. -/
theorem onering_recorded_unconditionally_witness :
    (0 < exTm5.edges.length ∧
      ¬((exTm5.edges.getD 0 (0, 0)).1 ∈ exSm5.vertex_map ∧
        (exTm5.edges.getD 0 (0, 0)).2 ∈ exSm5.vertex_map)) ∧
    alookup (compute_onerings exTm5 exSm5) 0 =
      some (walk exTm5 (exTm5.edges.getD 0 (0, 0)).1 (exTm5.edges.getD 0 (0, 0)).2
        (walkFuel exTm5) [pyGetD exTm5.edge_adjacent_elements ((0 : Nat) : Int) 0]) :=
  ⟨⟨by decide, by decide⟩,
    onering_recorded_unconditionally exTm5 exSm5 0 (by decide) (by decide)⟩

/-- C6: init_framefield surfaces the empty-boundary-frame failure as an
error (the numpy diagnostic of stacking an empty list) exactly when no
boundary frame survives the flat-face filtering, and otherwise does not
error. -/
theorem init_error_iff_no_boundary_frames (tm : TetMesh) (sm : SurfMesh) :
    init_framefield tm sm = Except.error vstack_empty_error ↔
      boundary_frames tm sm = [] := by
  cases hbf : boundary_frames tm sm with
  | nil => simp [init_framefield, hbf]
  | cons a l => simp [init_framefield, hbf]

/-- C7: a surface face produces no boundary frame exactly when both
principal curvatures at its first vertex are close to zero in the sense of
math.isclose with default tolerances; every retained face produces one
frame whose u, v are the two principal curvature directions and whose w is
the vertex normal, and the boundary frame list is exactly the per-face
collection of these. -/
theorem boundary_frame_characterization (tm : TetMesh) (sm : SurfMesh) (fi : Nat)
    (hfi : fi < sm.faces.length) :
    (faceFrame tm sm fi = none ↔
      (isclose (pyGetD sm.k1 (pyGetD (sm.faces.getD fi []) 0 0) 0) 0 = true ∧
       isclose (pyGetD sm.k2 (pyGetD (sm.faces.getD fi []) 0 0) 0) 0 = true)) ∧
    (∀ fr : Frame, faceFrame tm sm fi = some fr →
      fr.u = pyGetD sm.pdir1 (pyGetD (sm.faces.getD fi []) 0 0) Vec3.zero ∧
      fr.v = pyGetD sm.pdir2 (pyGetD (sm.faces.getD fi []) 0 0) Vec3.zero ∧
      fr.w = pyGetD sm.vertex_normals (pyGetD (sm.faces.getD fi []) 0 0) Vec3.zero) ∧
    boundary_frames tm sm = (List.range sm.faces.length).filterMap (faceFrame tm sm) := by
  refine ⟨?_, ?_, rfl⟩
  · rw [faceFrame]
    split
    · rename_i hcond
      rw [Bool.and_eq_true] at hcond
      exact iff_of_true rfl hcond
    · rename_i hcond
      rw [Bool.and_eq_true] at hcond
      simp only [reduceCtorEq, false_iff]
      intro hc
      exact hcond ⟨hc.1, hc.2⟩
  · intro fr hfr
    rw [faceFrame] at hfr
    split at hfr
    · simp at hfr
    · have := (Option.some_inj.mp hfr).symm
      subst this
      exact ⟨rfl, rfl, rfl⟩

/-- Witness for boundary_frame_characterization at the concrete face 0 of
exSm7, which is retained and produces the curvature frame. -/
theorem boundary_frame_characterization_witness :
    (0 < exSm7.faces.length) ∧
    ((faceFrame exTm7 exSm7 0 = none ↔
      (isclose (pyGetD exSm7.k1 (pyGetD (exSm7.faces.getD 0 []) 0 0) 0) 0 = true ∧
       isclose (pyGetD exSm7.k2 (pyGetD (exSm7.faces.getD 0 []) 0 0) 0) 0 = true)) ∧
    (∀ fr : Frame, faceFrame exTm7 exSm7 0 = some fr →
      fr.u = pyGetD exSm7.pdir1 (pyGetD (exSm7.faces.getD 0 []) 0 0) Vec3.zero ∧
      fr.v = pyGetD exSm7.pdir2 (pyGetD (exSm7.faces.getD 0 []) 0 0) Vec3.zero ∧
      fr.w = pyGetD exSm7.vertex_normals (pyGetD (exSm7.faces.getD 0 []) 0 0) Vec3.zero) ∧
    boundary_frames exTm7 exSm7 = (List.range exSm7.faces.length).filterMap (faceFrame exTm7 exSm7)) :=
  ⟨by decide, boundary_frame_characterization exTm7 exSm7 0 (by decide)⟩

/-- C10: every value stored in the matchings table is one of the 24
precomputed chiral symmetry elements, and every key is an ordered adjacent
pair in which neither entry is the -1 boundary sentinel. -/
theorem matchings_entries_characterization (tm : TetMesh) (fs : List Frame)
    (p : Int × Int) (M : Mat3) (h : alookup (matchings tm fs) p = some M) :
    M ∈ chiral_symmetries ∧ p ∈ tm.adjacent_elements ∧ p.1 ≠ -1 ∧ p.2 ≠ -1 := by
  obtain ⟨hp, hc, hM⟩ := alookup_matchings_inv tm fs p M h
  clear h
  have hmem : M ∈ chiral_symmetries := by
    rw [hM, bestMatch]
    have hlt : argmin (matchScores fs p) < chiral_symmetries.length := by
      rw [← matchScores_length fs p]
      exact argmin_lt_length _ (matchScores_ne_nil fs p)
    exact chiral_getD_mem _ hlt
  exact ⟨hmem, hp, fun h1 => hc (Or.inl h1), fun h2 => hc (Or.inr h2)⟩

/-- C9: every recorded one-ring is non-empty, starts with the edge's
recorded incident tetrahedron, has no duplicate entries, and every entry
after the seed is a non-sentinel tetrahedron containing both edge
endpoints. -/
theorem onering_structural_invariants (tm : TetMesh) (sm : SurfMesh) (ei : Nat)
    (one_ring : List Int)
    (h : alookup (compute_onerings tm sm) ei = some one_ring) :
    one_ring ≠ [] ∧
    one_ring.head? = some (pyGetD tm.edge_adjacent_elements (ei : Int) 0) ∧
    one_ring.Nodup ∧
    ∀ x ∈ one_ring.drop 1, x ≠ -1 ∧
      (tm.edges.getD ei (0, 0)).1 ∈ pyGetD tm.elements x [] ∧
      (tm.edges.getD ei (0, 0)).2 ∈ pyGetD tm.elements x [] := by
  rw [alookup_onerings] at h
  split at h
  · simp only [oneRingOf] at h
    split at h
    · exact absurd h (by simp)
    · have hw := Option.some_inj.mp h
      obtain ⟨ext, heq, hnd, hext⟩ :=
        walk_spec tm (tm.edges.getD ei (0, 0)).1 (tm.edges.getD ei (0, 0)).2 (walkFuel tm)
          [pyGetD tm.edge_adjacent_elements (ei : Int) 0] (by simp)
      rw [heq] at hw
      rw [← hw]
      refine ⟨by simp, by simp, by simpa using hnd, ?_⟩
      intro x hx
      exact hext x (by simpa using hx)
  · exact absurd h (by simp)

/-- Witness for onering_structural_invariants at the recorded ring of edge
0 in exTm5. -/
theorem onering_structural_invariants_witness :
    (alookup (compute_onerings exTm5 exSm5) 0 = some [0]) ∧
    (([0] : List Int) ≠ [] ∧
    ([0] : List Int).head? = some (pyGetD exTm5.edge_adjacent_elements ((0 : Nat) : Int) 0) ∧
    ([0] : List Int).Nodup ∧
    ∀ x ∈ ([0] : List Int).drop 1, x ≠ -1 ∧
      (exTm5.edges.getD 0 (0, 0)).1 ∈ pyGetD exTm5.elements x [] ∧
      (exTm5.edges.getD 0 (0, 0)).2 ∈ pyGetD exTm5.elements x []) :=
  ⟨by decide, onering_structural_invariants exTm5 exSm5 0 [0] (by decide)⟩

/-- C8: after a successful initialization, there is exactly one frame per
tetrahedron; the frame of tetrahedron ti is anchored at that tetrahedron's
own centroid and copies u, v, w from the boundary frame returned by the
nearest-neighbor query on the centroid. -/
theorem init_assigns_one_frame_per_tet (tm : TetMesh) (sm : SurfMesh) (fs : List Frame)
    (h : init_framefield tm sm = Except.ok fs) :
    fs.length = tm.elements.length ∧
    ∀ ti : Nat, ti < tm.elements.length →
      fs.getD ti default_frame =
        ⟨((boundary_frames tm sm).getD
            (kd_query ((boundary_frames tm sm).map (fun fr => fr.location))
              (tet_centroid tm (ti : Int))) default_frame).u,
         ((boundary_frames tm sm).getD
            (kd_query ((boundary_frames tm sm).map (fun fr => fr.location))
              (tet_centroid tm (ti : Int))) default_frame).v,
         ((boundary_frames tm sm).getD
            (kd_query ((boundary_frames tm sm).map (fun fr => fr.location))
              (tet_centroid tm (ti : Int))) default_frame).w,
         tet_centroid tm (ti : Int)⟩ := by
  rw [init_framefield] at h
  split at h
  · exact absurd h (by simp)
  · have hfs := (Except.ok.inj h).symm
    subst hfs
    constructor
    · simp
    · intro ti hti
      rw [List.getD_eq_getElem _ _ (by simpa using hti), List.getElem_map,
        List.getElem_range]

/-- Witness for init_assigns_one_frame_per_tet at the one-tetrahedron mesh
exTm7 with the single boundary frame of exSm7. -/
theorem init_assigns_one_frame_per_tet_witness :
    (init_framefield exTm7 exSm7 = Except.ok
      [⟨⟨1, 0, 0⟩, ⟨0, 1, 0⟩, ⟨0, 0, 1⟩, ⟨1/2, 1/2, 1/2⟩⟩]) ∧
    (([⟨⟨1, 0, 0⟩, ⟨0, 1, 0⟩, ⟨0, 0, 1⟩, ⟨1/2, 1/2, 1/2⟩⟩] : List Frame).length =
        exTm7.elements.length ∧
    ∀ ti : Nat, ti < exTm7.elements.length →
      ([⟨⟨1, 0, 0⟩, ⟨0, 1, 0⟩, ⟨0, 0, 1⟩, ⟨1/2, 1/2, 1/2⟩⟩] : List Frame).getD ti default_frame =
        ⟨((boundary_frames exTm7 exSm7).getD
            (kd_query ((boundary_frames exTm7 exSm7).map (fun fr => fr.location))
              (tet_centroid exTm7 (ti : Int))) default_frame).u,
         ((boundary_frames exTm7 exSm7).getD
            (kd_query ((boundary_frames exTm7 exSm7).map (fun fr => fr.location))
              (tet_centroid exTm7 (ti : Int))) default_frame).v,
         ((boundary_frames exTm7 exSm7).getD
            (kd_query ((boundary_frames exTm7 exSm7).map (fun fr => fr.location))
              (tet_centroid exTm7 (ti : Int))) default_frame).w,
         tet_centroid exTm7 (ti : Int)⟩) :=
  ⟨by decide, init_assigns_one_frame_per_tet exTm7 exSm7 _ (by decide)⟩

/-- C2: for every interior-adjacent pair, the stored Matching is the
element of the fixed 24-element list whose combined residual vector
(u_i - R u_j) + (v_i - R v_j) + (w_i - R w_j) has minimal Euclidean norm,
with ties broken by the first-encountered minimum. -/
theorem matcher_assigns_first_min (tm : TetMesh) (fs : List Frame) (p : Int × Int)
    (hp : p ∈ tm.adjacent_elements) (h1 : p.1 ≠ -1) (h2 : p.2 ≠ -1) :
    ∃ k : Nat, k < chiral_symmetries.length ∧
      alookup (matchings tm fs) p = some (chiral_symmetries.getD k Mat3.idm) ∧
      (∀ l : Nat, l < chiral_symmetries.length →
        Real.sqrt ((Vec3.sqnorm (resid fs p (chiral_symmetries.getD k Mat3.idm)) : ℚ) : ℝ) ≤
          Real.sqrt ((Vec3.sqnorm (resid fs p (chiral_symmetries.getD l Mat3.idm)) : ℚ) : ℝ)) ∧
      (∀ l : Nat, l < k →
        Real.sqrt ((Vec3.sqnorm (resid fs p (chiral_symmetries.getD k Mat3.idm)) : ℚ) : ℝ) <
          Real.sqrt ((Vec3.sqnorm (resid fs p (chiral_symmetries.getD l Mat3.idm)) : ℚ) : ℝ)) := by
  have hlk : argmin (matchScores fs p) < chiral_symmetries.length := by
    rw [← matchScores_length fs p]
    exact argmin_lt_length _ (matchScores_ne_nil fs p)
  refine ⟨argmin (matchScores fs p), hlk, ?_, ?_, ?_⟩
  · rw [alookup_matchings tm fs p hp h1 h2, bestMatch]
  · intro l hl
    apply Real.sqrt_le_sqrt
    have hle := argmin_le (matchScores fs p) l (by rw [matchScores_length]; exact hl)
    rw [matchScores_getD fs p _ hlk, matchScores_getD fs p l hl] at hle
    exact_mod_cast hle
  · intro l hlt
    have hll : l < chiral_symmetries.length := lt_trans hlt hlk
    apply Real.sqrt_lt_sqrt
    · have := Vec3.sqnorm_nonneg (resid fs p (chiral_symmetries.getD (argmin (matchScores fs p)) Mat3.idm))
      exact_mod_cast this
    · have hfirst := argmin_first (matchScores fs p) l hlt
      rw [matchScores_getD fs p _ hlk, matchScores_getD fs p l hll] at hfirst
      exact_mod_cast hfirst

/-- Witness for matcher_assigns_first_min at the pair (0, 1) of exTm4w. -/
theorem matcher_assigns_first_min_witness :
    (((0, 1) : Int × Int) ∈ exTm4w.adjacent_elements ∧ ((0, 1) : Int × Int).1 ≠ -1 ∧
      ((0, 1) : Int × Int).2 ≠ -1) ∧
    (∃ k : Nat, k < chiral_symmetries.length ∧
      alookup (matchings exTm4w exF4w) (0, 1) = some (chiral_symmetries.getD k Mat3.idm) ∧
      (∀ l : Nat, l < chiral_symmetries.length →
        Real.sqrt ((Vec3.sqnorm (resid exF4w (0, 1) (chiral_symmetries.getD k Mat3.idm)) : ℚ) : ℝ) ≤
          Real.sqrt ((Vec3.sqnorm (resid exF4w (0, 1) (chiral_symmetries.getD l Mat3.idm)) : ℚ) : ℝ)) ∧
      (∀ l : Nat, l < k →
        Real.sqrt ((Vec3.sqnorm (resid exF4w (0, 1) (chiral_symmetries.getD k Mat3.idm)) : ℚ) : ℝ) <
          Real.sqrt ((Vec3.sqnorm (resid exF4w (0, 1) (chiral_symmetries.getD l Mat3.idm)) : ℚ) : ℝ))) :=
  ⟨⟨by decide, by decide, by decide⟩,
    matcher_assigns_first_min exTm4w exF4w (0, 1) (by decide) (by decide) (by decide)⟩

/-- C3: an edge with a recorded one-ring appears in the classifier's line
list exactly when the accumulated matching product around its ring differs
from the identity, and the delivered output is the ordered list of those
edges' endpoint pairs in mesh point coordinates. -/
theorem classifier_reports_nonidentity_holonomy (tm : TetMesh)
    (one_rings : List (Nat × List Int)) (fs : List Frame) (ei : Nat) (one_ring : List Int)
    (hei : ei < tm.edges.length) (hnd : tm.edges.Nodup)
    (hr : alookup one_rings ei = some one_ring)
    (hcov : ∀ i : Nat, i < one_ring.length →
      (alookup (matchings tm fs) (stepPair one_ring i)).isSome = true ∨
      (alookup (matchings tm fs)
        ((stepPair one_ring i).2, (stepPair one_ring i).1)).isSome = true) :
    (tm.edges.getD ei (0, 0) ∈ singular_graph_lines tm one_rings fs ↔
      edge_type (matchings tm fs) one_ring ≠ Mat3.idm) ∧
    singular_graph tm one_rings fs =
      (singular_graph_lines tm one_rings fs).map
        (fun edge => (pyGetD tm.points edge.1 Vec3.zero, pyGetD tm.points edge.2 Vec3.zero)) := by
  constructor
  · constructor
    · intro hmem
      simp only [singular_graph_lines, List.mem_filterMap, List.mem_range] at hmem
      obtain ⟨ej, hej, hfe⟩ := hmem
      cases hrj : alookup one_rings ej with
      | none =>
        simp only [hrj] at hfe
        exact Option.noConfusion hfe
      | some ring2 =>
        simp only [hrj] at hfe
        by_cases ht : edge_type (matchings tm fs) ring2 = Mat3.idm
        · rw [if_pos ht] at hfe; exact absurd hfe (by simp)
        · rw [if_neg ht] at hfe
          have he : tm.edges.getD ej (0, 0) = tm.edges.getD ei (0, 0) :=
            Option.some_inj.mp hfe
          have hji : ej = ei := by
            rw [List.getD_eq_getElem _ _ hej, List.getD_eq_getElem _ _ hei] at he
            exact (List.Nodup.getElem_inj_iff hnd).mp he
          subst hji
          rw [hr] at hrj
          rw [Option.some_inj.mp hrj]
          exact ht
    · intro hne
      simp only [singular_graph_lines, List.mem_filterMap, List.mem_range]
      exact ⟨ei, hei, by simp only [hr]; rw [if_neg hne]⟩
  · rfl

/-- Witness for classifier_reports_nonidentity_holonomy at edge 0 of exTm1
with the ring [0, 1] of exRings1. -/
theorem classifier_reports_nonidentity_holonomy_witness :
    (0 < exTm1.edges.length ∧ exTm1.edges.Nodup ∧
      alookup exRings1 0 = some [0, 1] ∧
      (∀ i : Nat, i < ([0, 1] : List Int).length →
        (alookup (matchings exTm1 exF1) (stepPair [0, 1] i)).isSome = true ∨
        (alookup (matchings exTm1 exF1)
          ((stepPair [0, 1] i).2, (stepPair [0, 1] i).1)).isSome = true)) ∧
    ((exTm1.edges.getD 0 (0, 0) ∈ singular_graph_lines exTm1 exRings1 exF1 ↔
      edge_type (matchings exTm1 exF1) [0, 1] ≠ Mat3.idm) ∧
    singular_graph exTm1 exRings1 exF1 =
      (singular_graph_lines exTm1 exRings1 exF1).map
        (fun edge => (pyGetD exTm1.points edge.1 Vec3.zero, pyGetD exTm1.points edge.2 Vec3.zero))) :=
  ⟨⟨by decide, by decide, by decide, by decide⟩,
    classifier_reports_nonidentity_holonomy exTm1 exRings1 exF1 0 [0, 1]
      (by decide) (by decide) (by decide) (by decide)⟩

/-- Transposing the unique minimizer of the matching scores of a pair
gives the first-argmin of the scores of the reversed pair. -/
theorem argmin_swap_aux (fs : List Frame) (p : Int × Int) (k : Nat)
    (hk : k < chiral_symmetries.length)
    (huniq : ∀ l : Nat, l < chiral_symmetries.length → l ≠ k →
      (matchScores fs p).getD k 0 < (matchScores fs p).getD l 0) :
    ∃ k1 : Nat, k1 < chiral_symmetries.length ∧
      chiral_symmetries.getD k1 Mat3.idm = (chiral_symmetries.getD k Mat3.idm).transpose ∧
      argmin (matchScores fs (p.2, p.1)) = k1 := by
  have hAmem : chiral_symmetries.getD k Mat3.idm ∈ chiral_symmetries := chiral_getD_mem k hk
  have hATmem := chiral_trans_mem _ hAmem
  obtain ⟨k1, hk1, hk1eq⟩ := List.mem_iff_getElem.mp hATmem
  have hk1getD : chiral_symmetries.getD k1 Mat3.idm =
      (chiral_symmetries.getD k Mat3.idm).transpose := by
    rw [List.getD_eq_getElem _ _ hk1]; exact hk1eq
  refine ⟨k1, hk1, hk1getD, ?_⟩
  apply argmin_unique
  · rw [matchScores_length]; exact hk1
  · intro j hj hjne
    rw [matchScores_length] at hj
    have hQmem : chiral_symmetries.getD j Mat3.idm ∈ chiral_symmetries := chiral_getD_mem j hj
    obtain ⟨hoQ1, hoQ2⟩ := chiral_orth _ hQmem
    have hswapj : (matchScores fs (p.2, p.1)).getD j 0 =
        Vec3.sqnorm (resid fs p (chiral_symmetries.getD j Mat3.idm).transpose) := by
      rw [matchScores_getD fs (p.2, p.1) j hj]
      exact resid_swap_sqnorm fs p _ hoQ1 hoQ2
    have hQTmem := chiral_trans_mem _ hQmem
    obtain ⟨m, hm, hmeq⟩ := List.mem_iff_getElem.mp hQTmem
    have hmgetD : chiral_symmetries.getD m Mat3.idm =
        (chiral_symmetries.getD j Mat3.idm).transpose := by
      rw [List.getD_eq_getElem _ _ hm]; exact hmeq
    have hmk : m ≠ k := by
      intro hme
      rw [hme] at hmgetD
      apply hjne
      apply chiral_getD_inj j k1 hj hk1
      rw [hk1getD, hmgetD]
      exact (Mat3.transpose_transpose _).symm
    have e2 : (matchScores fs (p.2, p.1)).getD j 0 = (matchScores fs p).getD m 0 := by
      rw [hswapj, matchScores_getD fs p m hm, hmgetD]
    have e1 : (matchScores fs (p.2, p.1)).getD k1 0 = (matchScores fs p).getD k 0 := by
      rw [matchScores_getD fs (p.2, p.1) k1 hk1, hk1getD]
      obtain ⟨hoA1, hoA2⟩ := chiral_orth _ hATmem
      rw [resid_swap_sqnorm fs p _ hoA1 hoA2, Mat3.transpose_transpose]
      rw [matchScores_getD fs p k hk]
    rw [e1, e2]
    exact huniq m hm hmk

/-- C4 (amended): for an interior-adjacent pair whose minimal matching
score is attained by a unique symmetry element, the transpose (inverse) of
the stored Matching equals the Matching that the same scoring procedure
computes for the reversed pair. -/
theorem matching_transpose_of_unique_min (tm : TetMesh) (fs : List Frame) (p : Int × Int)
    (hp : p ∈ tm.adjacent_elements) (h1 : p.1 ≠ -1) (h2 : p.2 ≠ -1)
    (huniq : ∀ l : Nat, l < chiral_symmetries.length →
      l ≠ argmin (matchScores fs p) →
      (matchScores fs p).getD (argmin (matchScores fs p)) 0 <
        (matchScores fs p).getD l 0) :
    alookup (matchings tm fs) p = some (bestMatch fs p) ∧
    (bestMatch fs p).transpose = bestMatch fs (p.2, p.1) := by
  have hk : argmin (matchScores fs p) < chiral_symmetries.length := by
    rw [← matchScores_length fs p]
    exact argmin_lt_length _ (matchScores_ne_nil fs p)
  obtain ⟨k1, hk1, hgetD, harg⟩ := argmin_swap_aux fs p (argmin (matchScores fs p)) hk huniq
  refine ⟨alookup_matchings tm fs p hp h1 h2, ?_⟩
  simp only [bestMatch]
  rw [harg, hgetD]

/-- Witness for matching_transpose_of_unique_min at the pair (0, 1) of
exTm4w, whose minimal score is attained only by the identity element. -/
theorem matching_transpose_of_unique_min_witness :
    (((0, 1) : Int × Int) ∈ exTm4w.adjacent_elements ∧ ((0, 1) : Int × Int).1 ≠ -1 ∧
      ((0, 1) : Int × Int).2 ≠ -1 ∧
      (∀ l : Nat, l < chiral_symmetries.length →
        l ≠ argmin (matchScores exF4w (0, 1)) →
        (matchScores exF4w (0, 1)).getD (argmin (matchScores exF4w (0, 1))) 0 <
          (matchScores exF4w (0, 1)).getD l 0)) ∧
    (alookup (matchings exTm4w exF4w) (0, 1) = some (bestMatch exF4w (0, 1)) ∧
      (bestMatch exF4w (0, 1)).transpose = bestMatch exF4w (1, 0)) :=
  ⟨⟨by decide, by decide, by decide, by decide⟩,
    matching_transpose_of_unique_min exTm4w exF4w (0, 1)
      (by decide) (by decide) (by decide) (by decide)⟩

/-- Witness for matchings_entries_characterization at the stored entry of
the pair (0, 1) in the matchings of exTm4w. -/
theorem matchings_entries_characterization_witness :
    (alookup (matchings exTm4w exF4w) (0, 1) = some Mat3.idm) ∧
    (Mat3.idm ∈ chiral_symmetries ∧ ((0, 1) : Int × Int) ∈ exTm4w.adjacent_elements ∧
      ((0, 1) : Int × Int).1 ≠ -1 ∧ ((0, 1) : Int × Int).2 ≠ -1) :=
  ⟨by decide, matchings_entries_characterization exTm4w exF4w (0, 1) Mat3.idm (by decide)⟩

end HexM
